import Mathlib

/-
Verification of the sherror client (src/unnamed/part_003, class SherrorClient).

The development shallowly embeds the client's pure logic:
  * string helpers model the JavaScript string operations used by the source
    (String.prototype.split with a one-character separator, startsWith,
    a regex strip of a trailing ".git", parseInt, WHATWG URL pathname);
  * `parseGitRemote` and `parseDiscussionNumber` are the client's URL parsers;
  * `constructorCheck` is the constructor validation;
  * `serializeErrorText` / `writebackElements` / `writebackConfig` model the
    config writeback engine at the level of the errors-array literal;
  * `sync` and `clear` model the two remote-reconciliation operations as pure
    state-passing functions over a `RemoteModel` of the GitHub Discussions
    platform, returning the run's result, the final in-memory error list, the
    trace of issued mutations/writebacks, and the console output.
-/

deriving instance DecidableEq for Except

namespace Sherror

/-! ## Character-level string toolkit (models of the JS string operations) -/

/-- Model of `s.startsWith(pre)` on character lists. -/
def charsStartWith : List Char → List Char → Bool
  | _, [] => true
  | [], _ :: _ => false
  | c :: cs, p :: ps => p = c && charsStartWith cs ps

/-- Model of `s.startsWith(pre)`. -/
def jsStartsWith (s pre : String) : Bool :=
  charsStartWith s.data pre.data

/-- Model of `s.split(sep)` for a one-character separator, on character lists.
Mirrors the JavaScript semantics: splitting the empty string yields `[""]`,
adjacent separators yield empty fields. -/
def splitChar (sep : Char) : List Char → List (List Char)
  | [] => [[]]
  | c :: cs =>
    let r := splitChar sep cs
    if c = sep then [] :: r
    else
      match r with
      | [] => [[c]]
      | h :: t => (c :: h) :: t

/-- Model of `s.split(sep)` for a one-character separator. -/
def jsSplit (s : String) (sep : Char) : List String :=
  (splitChar sep s.data).map String.mk

/-- Model of `path.replace(/\.git$/, "")`: strip one trailing ".git". -/
def stripGitSuffix (path : String) : String :=
  if charsStartWith path.data.reverse ".git".data.reverse then
    String.mk (path.data.take (path.data.length - 4))
  else path

/-! ## parseInt and the URL model -/

/-- Decimal digits of a natural number, most significant first, with explicit
fuel so that the definition is structurally recursive (the fuel `n + 1` always
dominates the number of digits of `n`). -/
def natToStrAux : Nat → Nat → String
  | 0, _ => ""
  | fuel + 1, n =>
    if n < 10 then String.singleton (Char.ofNat (48 + n))
    else natToStrAux fuel (n / 10) ++ String.singleton (Char.ofNat (48 + n % 10))

/-- Decimal rendering of a natural number (used to render error codes the way
JavaScript template interpolation renders numbers). -/
def natToStr (n : Nat) : String := natToStrAux (n + 1) n

/-- Rendering of a JavaScript number holding an integer value. -/
def intToStr (n : Int) : String :=
  if n < 0 then "-" ++ natToStr n.natAbs else natToStr n.natAbs

/-- Maximal leading run of decimal digits, `none` when there is none. -/
def leadingDigits (cs : List Char) : Option Nat :=
  let ds := cs.takeWhile Char.isDigit
  if ds.isEmpty then none
  else some (ds.foldl (fun n c => n * 10 + (c.toNat - 48)) 0)

/-- Model of `parseInt(s, 10)`: skip leading whitespace, optional sign, then
the maximal run of decimal digits; `none` models the `NaN` result. -/
def parseIntJS (s : String) : Option Int :=
  let t := s.data.dropWhile (fun c => c = ' ' ∨ c = '\t' ∨ c = '\n' ∨ c = '\r')
  match t with
  | '-' :: rest => (leadingDigits rest).map (fun n => -(n : Int))
  | '+' :: rest => (leadingDigits rest).map (fun n => (n : Int))
  | _ => (leadingDigits t).map (fun n => (n : Int))

/-- Join path segments back with `'/'` (inverse of the split performed by the
URL pathname model). -/
def joinSegs : List (List Char) → List Char
  | [] => []
  | [s] => s
  | s :: rest => s ++ '/' :: joinSegs rest

/-- Characters the URL model accepts in a host: ASCII letters, digits, dots
and hyphens. Every such host is a valid domain for the WHATWG URL
constructor; everything else (spaces and the other forbidden host code
points, `%`, `:`-ports, `@`-userinfo, non-ASCII labels) is out of the model's
domain. -/
def isHostChar (c : Char) : Bool :=
  c.isAlphanum || c = '.' || c = '-'

/-- Characters the URL model accepts in a path segment: ASCII letters,
digits, dots, hyphens and underscores. All of these survive WHATWG pathname
serialization verbatim (no percent-encoding); everything else — including
`?` and `#`, which would start a query or fragment — is out of the model's
domain. -/
def isPathChar (c : Char) : Bool :=
  c.isAlphanum || c = '.' || c = '-' || c = '_'

/-- Conservative model of `new URL(s).pathname`. It succeeds only on a
subclass of the URLs the real constructor accepts — absolute http(s) URLs
whose host is a nonempty run of `isHostChar` characters and whose
slash-separated path segments are runs of `isPathChar` characters none of
which is `"."` or `".."` (the constructor normalizes dot segments away) — and
on that subclass it returns exactly the constructor's pathname. Where it
returns `none` the real constructor may accept or throw (other schemes,
ports, userinfo, queries, fragments, percent-encoding are outside the
domain), so theorems below draw conclusions from a `none` result only for
strings containing no `':'` at all, which can never be absolute URLs and
always make the constructor throw. -/
def urlPathname (s : String) : Option String :=
  let rest : Option (List Char) :=
    if jsStartsWith s "https://" then some (s.data.drop 8)
    else if jsStartsWith s "http://" then some (s.data.drop 7)
    else none
  match rest with
  | none => none
  | some r =>
    match splitChar '/' r with
    | [] => none
    | host :: segs =>
      if host.isEmpty then none
      else if !host.all isHostChar then none
      else if !segs.all (fun seg =>
          seg.all isPathChar && !(seg = ['.']) && !(seg = ['.', '.'])) then none
      else if segs.isEmpty then some "/"
      else some (String.mk ('/' :: joinSegs segs))

/-! ## The client's two URL parsers -/

/-- First half of `SherrorClient.parseGitRemote`: compute the `path` string.
A `git@`-prefixed remote is split at `':'` and the second piece taken (when
there is no `':'` the JS `parts[1]` is undefined and the later `.replace`
throws a TypeError); an http(s) remote goes through the URL parser and uses
`url.pathname.slice(1)`; anything else throws "Unrecognized git remote URL". -/
def remotePath (remote : String) : Except String String :=
  if jsStartsWith remote "git@" then
    match (jsSplit remote ':')[1]? with
    | some p => Except.ok p
    | none => Except.error ("TypeError: undefined git remote path in " ++ remote)
  else if jsStartsWith remote "http://" || jsStartsWith remote "https://" then
    match urlPathname remote with
    | some pn => Except.ok (String.mk (pn.data.drop 1))
    | none => Except.error ("Invalid URL: " ++ remote)
  else Except.error ("Unrecognized git remote URL: " ++ remote)

/-- Second half of `SherrorClient.parseGitRemote`: strip a trailing `.git`,
split at `'/'`, and require a truthy owner and repo. -/
def ownerRepoOfPath (p : String) : Except String (String × String) :=
  let path := stripGitSuffix p
  let parts := jsSplit path '/'
  let owner := (parts[0]?).getD ""
  let repo := (parts[1]?).getD ""
  if owner = "" ∨ repo = "" then Except.error ("Invalid git remote path: " ++ path)
  else Except.ok (owner, repo)

/-- Model of `SherrorClient.parseGitRemote`. -/
def parseGitRemote (remote : String) : Except String (String × String) :=
  match remotePath remote with
  | Except.error e => Except.error e
  | Except.ok p => ownerRepoOfPath p

/-- Model of `SherrorClient.parseDiscussionNumber`: parse the link as a URL
(the catch branch throws "Invalid discussion link"), take the last pathname
segment (`parts.pop() || ""`) and run `parseInt` on it; the inner `Option` is
`none` when `parseInt` yields `NaN`. -/
def parseDiscussionNumber (link : String) : Except String (Option Int) :=
  match urlPathname link with
  | none => Except.error ("Invalid discussion link: " ++ link)
  | some pathname =>
    let parts := jsSplit pathname '/'
    let num := (parts.getLast?).getD ""
    Except.ok (parseIntJS num)

/-! ## Data model -/

/-- The `SherrorError` interface: one declared error. `_discussion_link` is
optional; `none` models the field being absent. -/
structure SherrorError where
  error_code : Int
  app_message : String
  post_title : String
  post_body : String
  _discussion_link : Option String := none
deriving DecidableEq

/-- The `SherrorConfig` interface. `errors` is an `Option` because JavaScript
callers can omit the field (`undefined`), which is what the constructor's
truthiness check guards against; the optional `printer` callback is a pure
side effect and is not modeled. -/
structure SherrorConfig where
  category_name : String
  errors : Option (List SherrorError)
deriving DecidableEq

/-- JavaScript truthiness of an optional string: `undefined` and the empty
string are falsy. -/
def truthy : Option String → Bool
  | none => false
  | some s => s ≠ ""

/-- Model of the `SherrorClient` constructor's validation: the GitHub token
(read from the environment after dotenv loading) must be truthy, and
`config.category_name` and `config.errors` must be truthy. In JavaScript an
empty string and `undefined` are falsy but an array — even an empty one — is
truthy, so the `!config.errors` check only rejects a missing field. -/
def constructorCheck (ghToken : Option String) (config : SherrorConfig) : Except String Unit :=
  if truthy ghToken = false then
    Except.error "'GITHUB_TOKEN' must be set to configure GitHub Discussions"
  else if config.category_name = "" ∨ config.errors = none then
    Except.error "Invalid config: missing required fields"
  else Except.ok ()

/-- Model of `SherrorClient.get`: find the first error whose `error_code`
matches and return it with `app_message` passed through the colorizer (an
external library, abstracted as a function parameter); a missing code throws
"Error code ... not found in config". The returned `print`/`exit` behaviors
are process side effects and are not modeled. -/
def get (colorize : String → String) (errors : List SherrorError) (code : Int) :
    Except String SherrorError :=
  match errors.find? (fun e => e.error_code == code) with
  | none => Except.error ("Error code " ++ intToStr code ++ " not found in config")
  | some err => Except.ok { err with app_message := colorize err.app_message }

/-! ## Config writeback engine: serialization of one error literal -/

/-- Lower-case hexadecimal digit. -/
def hexDigit (n : Nat) : Char :=
  if n < 10 then Char.ofNat (48 + n) else Char.ofNat (87 + n)

/-- Escaping of one character of a string value by `JSON.stringify`. -/
def jsonEscapeCharData (c : Char) : List Char :=
  if c = '"' then ['\\', '"']
  else if c = '\\' then ['\\', '\\']
  else if c = '\n' then ['\\', 'n']
  else if c = '\r' then ['\\', 'r']
  else if c = '\t' then ['\\', 't']
  else if c = '\x08' then ['\\', 'b']
  else if c = '\x0c' then ['\\', 'f']
  else if c.toNat < 32 then
    ['\\', 'u', '0', '0', hexDigit (c.toNat / 16), hexDigit (c.toNat % 16)]
  else [c]

/-- Escaping of a whole string value by `JSON.stringify`. -/
def jsonEscapeData (cs : List Char) : List Char :=
  (cs.map jsonEscapeCharData).flatten

/-- Model of `prettyJSON` applied to a string value (`JSON.stringify(s, null, 2)`
of a scalar is just the quoted, escaped string — the indent only affects
objects and arrays). -/
def jsonQuote (s : String) : String :=
  String.mk ('"' :: (jsonEscapeData s.data ++ ['"']))

/-- Model of the object-literal text `writebackConfig` produces for one error
(the `objText` template string): fields in the fixed order `error_code`,
`app_message`, `post_title`, `post_body`, then `_discussion_link` only when
that field is truthy. -/
def serializeErrorText (e : SherrorError) : String :=
  "\x7b\n  error_code: " ++ intToStr e.error_code ++
  ",\n  app_message: " ++ jsonQuote e.app_message ++
  ",\n  post_title: " ++ jsonQuote e.post_title ++
  ",\n  post_body: " ++ jsonQuote e.post_body ++
  (if truthy e._discussion_link then
    ",\n  _discussion_link: " ++ jsonQuote (e._discussion_link.getD "")
  else "") ++
  "\n\x7d"

/-- Re-parsing of one line of a serialized error literal: a field line starts
with two spaces and its name is everything before the first `':'`. -/
def parseFieldName (line : String) : Option String :=
  if charsStartWith line.data "  ".data then
    some (String.mk ((line.data.drop 2).takeWhile (fun c => c ≠ ':')))
  else none

/-- Re-parsing of a serialized error literal: the field names appearing in it,
in order. The serializer never emits a raw newline inside a value (values are
JSON-escaped and error codes are decimal digits), so splitting on newlines
recovers exactly the emitted field lines. -/
def parseFieldNames (s : String) : List String :=
  (jsSplit s '\n').filterMap parseFieldName

/-- Model of the element-rewriting loop in `writebackConfig`
(`arrayLiteral.getElements().forEach((element, index) => ...)`): each element
whose index has an in-memory error is replaced by the freshly serialized
literal; elements beyond the in-memory list are left untouched. -/
def replaceWithSerialized (errors : List SherrorError) : Nat → List String → List String
  | _, [] => []
  | i, t :: ts =>
    (match errors[i]? with
     | some e => serializeErrorText e
     | none => t) :: replaceWithSerialized errors (i + 1) ts

/-- Model of `SherrorClient.writebackConfig` at the level of the located
errors-array literal: the artifact is the list of the array's element texts
(the file text around them is not touched by the rewrite, so it cancels in
any content comparison). After the element-wise replacement, serialized
literals for the extra in-memory errors are appended when the in-memory list
is longer (`replaceWithText` preserves the element count, so the on-file
length compared against is the original one). The ts-morph navigation to the
exported config object and its `errors` property is modeled as already
resolved; its failure branches abort without mutating the artifact. -/
def writebackConfig (config : SherrorConfig) (artifact : List String) :
    Except String (List String) :=
  if config.category_name = "" ∨ config.errors = none then
    Except.error "Invalid sherror config: missing category_name or errors"
  else
    let errs := config.errors.getD []
    let replaced := replaceWithSerialized errs 0 artifact
    if errs.length > artifact.length then
      Except.ok (replaced ++ (errs.drop artifact.length).map serializeErrorText)
    else
      Except.ok replaced

/-! ## Remote platform model and the synchronization engine -/

/-- A GitHub discussion category as returned by the repository query. -/
structure DiscussionCategory where
  id : String
  name : String
deriving DecidableEq

/-- A remote discussion as the client sees it: opaque id, human-facing number
(the trailing segment of its URL), title, body, and the category it lives in. -/
structure RemoteDiscussion where
  id : String
  number : Int
  title : String
  body : String
  categoryId : String
deriving DecidableEq

/-- Model of the remote GitHub Discussions platform behind `requestGraphQL`,
specified at its interface boundary: whether the repository lookup succeeds,
the repository id, its categories and discussions, the URL the platform mints
for the k-th discussion created during a run, and which deletions fail. -/
structure RemoteModel where
  repoFound : Bool
  repoId : String
  categories : List DiscussionCategory
  discussions : List RemoteDiscussion
  createUrls : Nat → String
  deleteFails : String → Bool

/-- Observable remote effects of a sync run: update mutations, create
mutations, and the config writeback with the error list it persists. Update
and create events record the loop index of the entry that issued them, tying
each mutation to its error definition (pure instrumentation: the index is not
part of the GraphQL payload); create events also record the URL the platform
returned. -/
inductive SyncEvent where
  | update (index : Nat) (id title body : String)
  | create (index : Nat) (repoId catId title body url : String)
  | writeback (errors : List SherrorError)
deriving DecidableEq

def isWriteback : SyncEvent → Bool
  | SyncEvent.writeback _ => true
  | _ => false

def isCreate : SyncEvent → Bool
  | SyncEvent.create _ _ _ _ _ _ => true
  | _ => false

/-- State after the per-error loop of `sync`: outcome, in-memory error list,
event trace, and the `updated` flag. -/
structure LoopResult where
  result : Except String Unit
  errors : List SherrorError
  events : List SyncEvent
  updated : Bool
deriving DecidableEq

/-- Model of the per-error loop of `SherrorClient.sync`. For an entry with a
truthy `_discussion_link`, the discussion number is extracted (a `NaN` number
serializes to `null` for the non-null `Int!` GraphQL variable, so the lookup
request fails), the discussion is fetched by number, and an update mutation is
issued only when title or body differs. For an entry without a truthy link, a
create mutation is issued and the returned URL is recorded into the in-memory
entry, marking the run updated. A thrown error aborts the remaining entries;
earlier mutations are not rolled back. The `typeof` validation of
`post_title`/`post_body` cannot fail in this typed embedding, where both
fields are strings. -/
def syncLoop (rm : RemoteModel) (catId : String) :
    Nat → Nat → List SherrorError → LoopResult
  | _, _, [] => ⟨Except.ok (), [], [], false⟩
  | index, createCount, err :: rest =>
    if truthy err._discussion_link then
      match parseDiscussionNumber (err._discussion_link.getD "") with
      | Except.error e => ⟨Except.error e, err :: rest, [], false⟩
      | Except.ok none =>
        ⟨Except.error "GraphQL errors: Int cannot represent non-integer value",
         err :: rest, [], false⟩
      | Except.ok (some n) =>
        match rm.discussions.find? (fun d => d.number == n) with
        | none => ⟨Except.error ("Discussion #" ++ intToStr n ++ " not found"),
            err :: rest, [], false⟩
        | some d =>
          if d.title ≠ err.post_title ∨ d.body ≠ err.post_body then
            let r := syncLoop rm catId (index + 1) createCount rest
            ⟨r.result, err :: r.errors,
             SyncEvent.update index d.id err.post_title err.post_body :: r.events, r.updated⟩
          else
            let r := syncLoop rm catId (index + 1) createCount rest
            ⟨r.result, err :: r.errors, r.events, r.updated⟩
    else
      let url := rm.createUrls createCount
      let r := syncLoop rm catId (index + 1) (createCount + 1) rest
      ⟨r.result, { err with _discussion_link := some url } :: r.errors,
       SyncEvent.create index rm.repoId catId err.post_title err.post_body url :: r.events,
       true⟩

/-- The category listing of the category-not-found console message
(`repository.discussionCategories.nodes.map(c => ...).join("\n")`). -/
def availableCategoriesText (cats : List DiscussionCategory) : String :=
  String.intercalate "\n" (cats.map (fun c => "- " ++ c.name))

/-- The console message surfaced when the configured category is missing. -/
def categoryNotFoundLog (owner repo categoryName : String)
    (cats : List DiscussionCategory) : String :=
  "\nError: Discussion category \"" ++ categoryName ++ "\" not found in " ++
    owner ++ "/" ++ repo ++ ".\n\nAvailable categories:\n" ++
    availableCategoriesText cats ++
    "\n\nTo fix this:\n1. Go to your repository settings on GitHub\n" ++
    "2. Click on \"Options\" in the left sidebar\n" ++
    "3. Scroll down to the \"Features\" section\n" ++
    "4. Make sure \"Discussions\" is enabled\n" ++
    "5. Click on \"Set up discussions\" if not already set up\n" ++
    "6. Create a new category named \"" ++ categoryName ++
    "\" in the discussions settings\n7. Run this command again\n"

/-- Result of a sync or clear run: the outcome, the final in-memory error
list, the chronological event trace, and the console output. -/
structure SyncResult where
  result : Except String Unit
  errors : List SherrorError
  events : List SyncEvent
  logs : List String
deriving DecidableEq

/-- Model of `SherrorClient.sync`: validate the config, resolve owner/repo
from the git remote, look the repository up, resolve the category by exact
name (failing with the category-not-found message, after logging the
available categories, without touching any discussion), run the per-error
loop, and — only when the completed run created at least one new link —
invoke the config writeback exactly once at the end with the accumulated
error list (recorded here as a `SyncEvent.writeback`; the artifact rewriting
itself is modeled by `writebackConfig`). -/
def sync (rm : RemoteModel) (remote : String) (config : SherrorConfig) : SyncResult :=
  if config.category_name = "" ∨ config.errors = none then
    { result := Except.error "Invalid sherror config: missing category_name or errors",
      errors := config.errors.getD [], events := [], logs := [] }
  else
    let errs := config.errors.getD []
    match parseGitRemote remote with
    | Except.error e => { result := Except.error e, errors := errs, events := [], logs := [] }
    | Except.ok (owner, repo) =>
      if rm.repoFound = false then
        { result := Except.error ("Repository " ++ owner ++ "/" ++ repo ++ " not found"),
          errors := errs, events := [], logs := [] }
      else
        match rm.categories.find? (fun c => c.name == config.category_name) with
        | none =>
          { result := Except.error ("Discussion category \"" ++ config.category_name ++
              "\" not found and cannot be created programmatically"),
            errors := errs, events := [],
            logs := [categoryNotFoundLog owner repo config.category_name rm.categories] }
        | some cat =>
          let log0 := "Using existing category: " ++ cat.name ++ " (" ++ cat.id ++ ")"
          let r := syncLoop rm cat.id 0 0 errs
          match r.result with
          | Except.error e =>
            { result := Except.error e, errors := r.errors, events := r.events, logs := [log0] }
          | Except.ok _ =>
            if r.updated then
              { result := Except.ok (), errors := r.errors,
                events := r.events ++ [SyncEvent.writeback r.errors], logs := [log0] }
            else
              { result := Except.ok (), errors := r.errors, events := r.events, logs := [log0] }

/-! ## The bulk clear operation -/

/-- Observable remote effects of a clear run. -/
inductive ClearEvent where
  | delete (id : String)
  | writeback (errors : List SherrorError)
deriving DecidableEq

def isClearWriteback : ClearEvent → Bool
  | ClearEvent.writeback _ => true
  | _ => false

/-- Result of a clear run. -/
structure ClearResult where
  result : Except String Unit
  errors : List SherrorError
  events : List ClearEvent
  logs : List String
deriving DecidableEq

/-- State after the per-discussion deletion loop of `clear`. -/
structure DeleteResult where
  result : Except String Unit
  events : List ClearEvent
  logs : List String
deriving DecidableEq

/-- Model of the deletion loop of `SherrorClient.clear`: discussions are
deleted one by one; a failing deletion logs and rethrows the underlying
error, aborting the remaining deletions (already-deleted discussions are not
restored). -/
def deleteLoop (rm : RemoteModel) : List RemoteDiscussion → DeleteResult
  | [] => ⟨Except.ok (), [], []⟩
  | d :: rest =>
    let log := "Deleting discussion #" ++ intToStr d.number ++ ": " ++ d.title
    if rm.deleteFails d.id then
      ⟨Except.error ("GraphQL errors: failed to delete discussion #" ++ intToStr d.number),
       [], [log]⟩
    else
      let r := deleteLoop rm rest
      ⟨r.result, ClearEvent.delete d.id :: r.events, log :: r.logs⟩

/-- Removal of a truthy `_discussion_link` from one entry
(`delete error._discussion_link`, guarded by the truthiness check). -/
def stripLink (e : SherrorError) : SherrorError :=
  if truthy e._discussion_link then { e with _discussion_link := none } else e

/-- Model of `SherrorClient.clear`: resolve owner/repo and the repository as
in `sync`; a missing category is non-fatal (log and return), as is an empty
discussion list. Otherwise the first page (up to 100) of the category's
discussions is fetched and each one deleted; on full success the truthy
`_discussion_link`s are stripped from the in-memory error list and — only
when at least one entry had one — the config writeback is invoked once. -/
def clear (rm : RemoteModel) (remote : String) (config : SherrorConfig) : ClearResult :=
  if config.category_name = "" then
    { result := Except.error "Invalid config: missing category_name",
      errors := config.errors.getD [], events := [], logs := [] }
  else
    let errs := config.errors.getD []
    match parseGitRemote remote with
    | Except.error e => { result := Except.error e, errors := errs, events := [], logs := [] }
    | Except.ok (owner, repo) =>
      if rm.repoFound = false then
        { result := Except.error ("Repository " ++ owner ++ "/" ++ repo ++ " not found"),
          errors := errs, events := [], logs := [] }
      else
        match rm.categories.find? (fun c => c.name == config.category_name) with
        | none =>
          { result := Except.ok (), errors := errs, events := [],
            logs := ["No discussions found in category \"" ++ config.category_name ++ "\""] }
        | some cat =>
          let discussions := (rm.discussions.filter (fun d => d.categoryId == cat.id)).take 100
          if discussions.isEmpty then
            { result := Except.ok (), errors := errs, events := [],
              logs := ["No discussions found in category \"" ++ config.category_name ++ "\""] }
          else
            let foundLog := "Found " ++ natToStr discussions.length ++
              " discussions to delete..."
            let dr := deleteLoop rm discussions
            match dr.result with
            | Except.error e =>
              { result := Except.error e, errors := errs, events := dr.events,
                logs := foundLog :: dr.logs }
            | Except.ok _ =>
              let successLog := "Successfully deleted " ++ natToStr discussions.length ++
                " discussions from category \"" ++ config.category_name ++ "\""
              match config.errors with
              | none =>
                { result := Except.ok (), errors := errs, events := dr.events,
                  logs := foundLog :: dr.logs ++ [successLog] }
              | some es =>
                if es.any (fun e => truthy e._discussion_link) then
                  { result := Except.ok (), errors := es.map stripLink,
                    events := dr.events ++ [ClearEvent.writeback (es.map stripLink)],
                    logs := foundLog :: dr.logs ++ [successLog] }
                else
                  { result := Except.ok (), errors := es.map stripLink, events := dr.events,
                    logs := foundLog :: dr.logs ++ [successLog] }

/-! ## Toolkit lemmas -/

theorem find?_append_of_none {α : Type} (p : α → Bool) (pre rest : List α)
    (h : pre.find? p = none) : (pre ++ rest).find? p = rest.find? p := by
  induction pre with
  | nil => rfl
  | cons a l ih =>
    cases hpa : p a with
    | true => simp [List.find?, hpa] at h
    | false =>
      simp only [List.find?, hpa] at h
      simp only [List.cons_append, List.find?, hpa]
      exact ih h

theorem find?_eq_none_of_all {α : Type} (p : α → Bool) (l : List α)
    (h : ∀ a ∈ l, p a = false) : l.find? p = none := by
  induction l with
  | nil => rfl
  | cons a l ih =>
    simp only [List.find?, h a (List.mem_cons_self a l)]
    exact ih (fun a' ha' => h a' (List.mem_cons_of_mem a ha'))

theorem splitChar_ne_nil (sep : Char) (l : List Char) : splitChar sep l ≠ [] := by
  cases l with
  | nil => simp [splitChar]
  | cons c cs =>
    simp only [splitChar]
    by_cases h : c = sep
    · simp [h]
    · simp only [h, if_false]
      cases splitChar sep cs with
      | nil => simp
      | cons h' t => simp

theorem splitChar_of_not_mem (sep : Char) (l : List Char) (h : sep ∉ l) :
    splitChar sep l = [l] := by
  induction l with
  | nil => rfl
  | cons c cs ih =>
    simp only [List.mem_cons, not_or] at h
    simp only [splitChar]
    rw [if_neg (fun hc => h.1 hc.symm), ih h.2]

theorem splitChar_append_sep (sep : Char) (a b : List Char) (ha : sep ∉ a) :
    splitChar sep (a ++ sep :: b) = a :: splitChar sep b := by
  induction a with
  | nil => simp [splitChar]
  | cons c cs ih =>
    simp only [List.mem_cons, not_or] at ha
    simp only [List.cons_append, splitChar]
    rw [if_neg (fun hc => ha.1 hc.symm), show cs.append (sep :: b) = cs ++ sep :: b from rfl,
      ih ha.2]

theorem charsStartWith_append (pre rest : List Char) :
    charsStartWith (pre ++ rest) pre = true := by
  induction pre with
  | nil => cases rest <;> rfl
  | cons p ps ih => simp [charsStartWith, ih]

theorem takeWhile_append_stop (p : Char → Bool) (a b : List Char) (c : Char)
    (ha : ∀ x ∈ a, p x = true) (hc : p c = false) :
    (a ++ c :: b).takeWhile p = a := by
  induction a with
  | nil => simp [List.takeWhile, hc]
  | cons x l ih =>
    simp only [List.cons_append, List.takeWhile, ha x (List.mem_cons_self x l)]
    rw [show l.append (c :: b) = l ++ c :: b from rfl,
      ih (fun y hy => ha y (List.mem_cons_of_mem x hy))]

theorem char_digit_ne_newline (k : Nat) (hk : k < 10) : Char.ofNat (48 + k) ≠ '\n' := by
  interval_cases k <;> decide

theorem natToStrAux_no_newline (fuel : Nat) : ∀ n, '\n' ∉ (natToStrAux fuel n).data := by
  induction fuel with
  | zero => intro n; simp [natToStrAux]
  | succ fuel ih =>
    intro n
    unfold natToStrAux
    split_ifs with h
    · intro hmem
      rw [show (String.singleton (Char.ofNat (48 + n))).data = [Char.ofNat (48 + n)] from rfl,
        List.mem_singleton] at hmem
      exact char_digit_ne_newline n h hmem.symm
    · intro hmem
      rw [String.data_append] at hmem
      rcases List.mem_append.mp hmem with h2 | h2
      · exact ih (n / 10) h2
      · rw [show (String.singleton (Char.ofNat (48 + n % 10))).data
            = [Char.ofNat (48 + n % 10)] from rfl, List.mem_singleton] at h2
        exact char_digit_ne_newline (n % 10) (Nat.mod_lt _ (by omega)) h2.symm

theorem intToStr_no_newline (n : Int) : '\n' ∉ (intToStr n).data := by
  unfold intToStr
  split_ifs with h
  · intro hmem
    rw [String.data_append] at hmem
    rcases List.mem_append.mp hmem with h2 | h2
    · exact absurd h2 (by decide)
    · exact natToStrAux_no_newline _ _ h2
  · exact natToStrAux_no_newline _ _

theorem hexDigit_ne_newline (k : Nat) (hk : k < 16) : hexDigit k ≠ '\n' := by
  unfold hexDigit
  interval_cases k <;> decide

theorem jsonEscapeCharData_no_newline (c : Char) : '\n' ∉ jsonEscapeCharData c := by
  unfold jsonEscapeCharData
  split_ifs with h1 h2 h3 h4 h5 h6 h7 h8
  · decide
  · decide
  · decide
  · decide
  · decide
  · decide
  · decide
  · intro hmem
    have hdiv : c.toNat / 16 < 16 := by omega
    have hmod : c.toNat % 16 < 16 := Nat.mod_lt _ (by omega)
    simp only [List.mem_cons, List.not_mem_nil, or_false] at hmem
    rcases hmem with h | h | h | h | h | h
    · exact absurd h (by decide)
    · exact absurd h (by decide)
    · exact absurd h (by decide)
    · exact absurd h (by decide)
    · exact hexDigit_ne_newline _ hdiv h.symm
    · exact hexDigit_ne_newline _ hmod h.symm
  · intro hm
    exact h3 ((List.mem_singleton.mp hm).symm)

theorem jsonQuote_no_newline (s : String) : '\n' ∉ (jsonQuote s).data := by
  unfold jsonQuote
  intro hmem
  simp only [List.mem_cons] at hmem
  rcases hmem with h | h
  · exact absurd h (by decide)
  · rcases List.mem_append.mp h with h2 | h2
    · unfold jsonEscapeData at h2
      rcases List.mem_flatten.mp h2 with ⟨l, hl, hcl⟩
      rcases List.mem_map.mp hl with ⟨c, _, rfl⟩
      exact jsonEscapeCharData_no_newline c hcl
    · exact absurd h2 (by decide)

theorem parseFieldName_line (name : String) (rest : List Char) (hname : ':' ∉ name.data) :
    parseFieldName (String.mk ("  ".data ++ (name.data ++ ':' :: rest))) = some name := by
  unfold parseFieldName
  rw [show (String.mk ("  ".data ++ (name.data ++ ':' :: rest))).data
      = "  ".data ++ (name.data ++ ':' :: rest) from rfl]
  rw [charsStartWith_append "  ".data _]
  simp only [if_true]
  rw [show ("  ".data ++ (name.data ++ ':' :: rest)).drop 2 = name.data ++ ':' :: rest from
    List.drop_left "  ".data _]
  rw [takeWhile_append_stop _ name.data rest ':'
    (fun x hx => by simp only [ne_eq, decide_eq_true_eq]; exact fun hc => hname (hc ▸ hx))
    (by decide)]

/-! ## Claims about the URL parsers (C8, C10) -/

theorem no_newline_line (lit : String) (v tail : List Char)
    (hlit : '\n' ∉ lit.data) (hv : '\n' ∉ v) (ht : '\n' ∉ tail) :
    '\n' ∉ lit.data ++ (v ++ tail) := by
  intro hm
  rcases List.mem_append.mp hm with h | h
  · exact hlit h
  · rcases List.mem_append.mp h with h | h
    · exact hv h
    · exact ht h

/-- C5 (confirmed): a serialized error literal lists its fields in the fixed
order `error_code`, `app_message`, `post_title`, `post_body`, then the link
field only when it is present; when the definition has no `_discussion_link`
the field is omitted entirely, so re-parsing the emitted literal shows the
link as absent. -/
theorem serializeError_fields (e : SherrorError) :
    parseFieldNames (serializeErrorText e) =
      ["error_code", "app_message", "post_title", "post_body"] ++
        (if truthy e._discussion_link then ["_discussion_link"] else [])
    ∧ (e._discussion_link = none →
        "_discussion_link" ∉ parseFieldNames (serializeErrorText e)) := by
  have main : parseFieldNames (serializeErrorText e) =
      ["error_code", "app_message", "post_title", "post_body"] ++
        (if truthy e._discussion_link then ["_discussion_link"] else []) := by
    have hA : '\n' ∉ "  error_code: ".data ++ ((intToStr e.error_code).data ++ [',']) :=
      no_newline_line _ _ _ (by decide) (intToStr_no_newline _) (by decide)
    have hB : '\n' ∉ "  app_message: ".data ++ ((jsonQuote e.app_message).data ++ [',']) :=
      no_newline_line _ _ _ (by decide) (jsonQuote_no_newline _) (by decide)
    have hC : '\n' ∉ "  post_title: ".data ++ ((jsonQuote e.post_title).data ++ [',']) :=
      no_newline_line _ _ _ (by decide) (jsonQuote_no_newline _) (by decide)
    have hp0 : parseFieldName (String.mk ['\x7b']) = none := rfl
    have hp5 : parseFieldName (String.mk ['\x7d']) = none := rfl
    have hp1 : parseFieldName (String.mk ("  error_code: ".data ++
        ((intToStr e.error_code).data ++ [',']))) = some "error_code" := by
      rw [show String.mk ("  error_code: ".data ++ ((intToStr e.error_code).data ++ [',']))
          = String.mk ("  ".data ++ ("error_code".data ++ ':' ::
            (' ' :: ((intToStr e.error_code).data ++ [','])))) from rfl]
      exact parseFieldName_line "error_code" _ (by decide)
    have hp2 : parseFieldName (String.mk ("  app_message: ".data ++
        ((jsonQuote e.app_message).data ++ [',']))) = some "app_message" := by
      rw [show String.mk ("  app_message: ".data ++ ((jsonQuote e.app_message).data ++ [',']))
          = String.mk ("  ".data ++ ("app_message".data ++ ':' ::
            (' ' :: ((jsonQuote e.app_message).data ++ [','])))) from rfl]
      exact parseFieldName_line "app_message" _ (by decide)
    have hp3 : parseFieldName (String.mk ("  post_title: ".data ++
        ((jsonQuote e.post_title).data ++ [',']))) = some "post_title" := by
      rw [show String.mk ("  post_title: ".data ++ ((jsonQuote e.post_title).data ++ [',']))
          = String.mk ("  ".data ++ ("post_title".data ++ ':' ::
            (' ' :: ((jsonQuote e.post_title).data ++ [','])))) from rfl]
      exact parseFieldName_line "post_title" _ (by decide)
    cases htr : truthy e._discussion_link with
    | false =>
      have hD : '\n' ∉ "  post_body: ".data ++ (jsonQuote e.post_body).data := by
        intro hm
        rcases List.mem_append.mp hm with h | h
        · exact absurd h (by decide)
        · exact jsonQuote_no_newline _ h
      have hdata : (serializeErrorText e).data =
          ['\x7b'] ++ '\n' ::
          (("  error_code: ".data ++ ((intToStr e.error_code).data ++ [','])) ++
          '\n' :: (("  app_message: ".data ++ ((jsonQuote e.app_message).data ++ [','])) ++
          '\n' :: (("  post_title: ".data ++ ((jsonQuote e.post_title).data ++ [','])) ++
          '\n' :: (("  post_body: ".data ++ (jsonQuote e.post_body).data) ++
          '\n' :: ['\x7d'])))) := by
        unfold serializeErrorText
        rw [htr, if_neg Bool.false_ne_true]
        simp only [String.data_append]
        simp only [List.append_assoc, List.cons_append, List.singleton_append,
          List.append_nil, List.nil_append]
      have hsplit : splitChar '\n' (serializeErrorText e).data =
          [['\x7b'],
           "  error_code: ".data ++ ((intToStr e.error_code).data ++ [',']),
           "  app_message: ".data ++ ((jsonQuote e.app_message).data ++ [',']),
           "  post_title: ".data ++ ((jsonQuote e.post_title).data ++ [',']),
           "  post_body: ".data ++ (jsonQuote e.post_body).data,
           ['\x7d']] := by
        rw [hdata]
        rw [splitChar_append_sep '\n' ['\x7b'] _ (by decide)]
        rw [splitChar_append_sep '\n' _ _ hA]
        rw [splitChar_append_sep '\n' _ _ hB]
        rw [splitChar_append_sep '\n' _ _ hC]
        rw [splitChar_append_sep '\n' _ _ hD]
        rw [splitChar_of_not_mem '\n' ['\x7d'] (by decide)]
      have hp4 : parseFieldName (String.mk ("  post_body: ".data ++
          (jsonQuote e.post_body).data)) = some "post_body" := by
        rw [show String.mk ("  post_body: ".data ++ (jsonQuote e.post_body).data)
            = String.mk ("  ".data ++ ("post_body".data ++ ':' ::
              (' ' :: (jsonQuote e.post_body).data))) from rfl]
        exact parseFieldName_line "post_body" _ (by decide)
      unfold parseFieldNames jsSplit
      rw [hsplit]
      simp only [List.map_cons, List.map_nil, List.filterMap_cons, hp0, hp1, hp2, hp3, hp4,
        hp5, List.filterMap_nil, htr, Bool.false_eq_true, if_false, List.append_nil]
    | true =>
      have hD : '\n' ∉ "  post_body: ".data ++ ((jsonQuote e.post_body).data ++ [',']) :=
        no_newline_line _ _ _ (by decide) (jsonQuote_no_newline _) (by decide)
      have hE : '\n' ∉ "  _discussion_link: ".data ++
          (jsonQuote (e._discussion_link.getD "")).data := by
        intro hm
        rcases List.mem_append.mp hm with h | h
        · exact absurd h (by decide)
        · exact jsonQuote_no_newline _ h
      have hdata : (serializeErrorText e).data =
          ['\x7b'] ++ '\n' ::
          (("  error_code: ".data ++ ((intToStr e.error_code).data ++ [','])) ++
          '\n' :: (("  app_message: ".data ++ ((jsonQuote e.app_message).data ++ [','])) ++
          '\n' :: (("  post_title: ".data ++ ((jsonQuote e.post_title).data ++ [','])) ++
          '\n' :: (("  post_body: ".data ++ ((jsonQuote e.post_body).data ++ [','])) ++
          '\n' :: (("  _discussion_link: ".data ++
              (jsonQuote (e._discussion_link.getD "")).data) ++
          '\n' :: ['\x7d']))))) := by
        unfold serializeErrorText
        rw [htr, if_pos rfl]
        simp only [String.data_append]
        simp only [List.append_assoc, List.cons_append, List.singleton_append,
          List.append_nil, List.nil_append]
      have hsplit : splitChar '\n' (serializeErrorText e).data =
          [['\x7b'],
           "  error_code: ".data ++ ((intToStr e.error_code).data ++ [',']),
           "  app_message: ".data ++ ((jsonQuote e.app_message).data ++ [',']),
           "  post_title: ".data ++ ((jsonQuote e.post_title).data ++ [',']),
           "  post_body: ".data ++ ((jsonQuote e.post_body).data ++ [',']),
           "  _discussion_link: ".data ++ (jsonQuote (e._discussion_link.getD "")).data,
           ['\x7d']] := by
        rw [hdata]
        rw [splitChar_append_sep '\n' ['\x7b'] _ (by decide)]
        rw [splitChar_append_sep '\n' _ _ hA]
        rw [splitChar_append_sep '\n' _ _ hB]
        rw [splitChar_append_sep '\n' _ _ hC]
        rw [splitChar_append_sep '\n' _ _ hD]
        rw [splitChar_append_sep '\n' _ _ hE]
        rw [splitChar_of_not_mem '\n' ['\x7d'] (by decide)]
      have hp4 : parseFieldName (String.mk ("  post_body: ".data ++
          ((jsonQuote e.post_body).data ++ [',']))) = some "post_body" := by
        rw [show String.mk ("  post_body: ".data ++ ((jsonQuote e.post_body).data ++ [',']))
            = String.mk ("  ".data ++ ("post_body".data ++ ':' ::
              (' ' :: ((jsonQuote e.post_body).data ++ [','])))) from rfl]
        exact parseFieldName_line "post_body" _ (by decide)
      have hp6 : parseFieldName (String.mk ("  _discussion_link: ".data ++
          (jsonQuote (e._discussion_link.getD "")).data)) = some "_discussion_link" := by
        rw [show String.mk ("  _discussion_link: ".data ++
              (jsonQuote (e._discussion_link.getD "")).data)
            = String.mk ("  ".data ++ ("_discussion_link".data ++ ':' ::
              (' ' :: (jsonQuote (e._discussion_link.getD "")).data))) from rfl]
        exact parseFieldName_line "_discussion_link" _ (by decide)
      unfold parseFieldNames jsSplit
      rw [hsplit]
      simp only [List.map_cons, List.map_nil, List.filterMap_cons, hp0, hp1, hp2, hp3, hp4,
        hp6, hp5, List.filterMap_nil, htr, if_true]
      rfl
  refine ⟨main, ?_⟩
  intro hnone
  rw [main, show truthy e._discussion_link = false by rw [hnone]; rfl]
  decide

/-- Witness for the C5 theorem at a concrete link-free error definition. -/
theorem serializeError_fields_witness :
    parseFieldNames (serializeErrorText ⟨7, "msg", "title", "body", none⟩) =
      ["error_code", "app_message", "post_title", "post_body"] ++
        (if truthy (⟨7, "msg", "title", "body", none⟩ : SherrorError)._discussion_link then
          ["_discussion_link"]
        else [])
    ∧ "_discussion_link" ∉ parseFieldNames (serializeErrorText ⟨7, "msg", "title", "body", none⟩) :=
  ⟨(serializeError_fields ⟨7, "msg", "title", "body", none⟩).1,
   (serializeError_fields ⟨7, "msg", "title", "body", none⟩).2 rfl⟩

/-! ## Writeback idempotence (C6) -/

theorem replaceWithSerialized_length (errors : List SherrorError) :
    ∀ i elems, (replaceWithSerialized errors i elems).length = elems.length := by
  intro i elems
  induction elems generalizing i with
  | nil => rfl
  | cons t ts ih => simp [replaceWithSerialized, ih]

theorem replaceWithSerialized_append (errors : List SherrorError) :
    ∀ xs i ys, replaceWithSerialized errors i (xs ++ ys) =
      replaceWithSerialized errors i xs ++ replaceWithSerialized errors (i + xs.length) ys := by
  intro xs
  induction xs with
  | nil => intro i ys; simp [replaceWithSerialized]
  | cons t ts ih =>
    intro i ys
    simp only [List.cons_append, replaceWithSerialized, List.length_cons]
    rw [show ts.append ys = ts ++ ys from rfl, ih (i + 1) ys,
      show i + 1 + ts.length = i + (ts.length + 1) by omega]

theorem replaceWithSerialized_idem (errors : List SherrorError) :
    ∀ elems i, replaceWithSerialized errors i (replaceWithSerialized errors i elems) =
      replaceWithSerialized errors i elems := by
  intro elems
  induction elems with
  | nil => intro i; rfl
  | cons t ts ih =>
    intro i
    cases hi : errors[i]? with
    | some e => simp [replaceWithSerialized, hi, ih (i + 1)]
    | none => simp [replaceWithSerialized, hi, ih (i + 1)]

theorem replaceWithSerialized_map_drop (errors : List SherrorError) :
    ∀ ds k, errors.drop k = ds →
      replaceWithSerialized errors k (ds.map serializeErrorText) = ds.map serializeErrorText := by
  intro ds
  induction ds with
  | nil => intro k _; rfl
  | cons d ds' ih =>
    intro k hd
    have h0 : errors[k]? = some d := by
      have := List.getElem?_drop errors k 0
      rw [hd] at this
      simpa using this.symm
    have h1 : errors.drop (k + 1) = ds' := by
      have := List.tail_drop errors k
      rw [hd] at this
      simpa using this.symm
    simp only [List.map_cons, replaceWithSerialized, h0]
    rw [ih (k + 1) h1]

/-- C6 (confirmed): writeback is idempotent on a no-op change — re-running the
writeback with unchanged in-memory error data on the artifact produced by a
successful run reproduces that artifact exactly. -/
theorem writebackConfig_idempotent (config : SherrorConfig) (a a' : List String)
    (h : writebackConfig config a = Except.ok a') :
    writebackConfig config a' = Except.ok a' := by
  unfold writebackConfig at h ⊢
  by_cases hc : config.category_name = "" ∨ config.errors = none
  · rw [if_pos hc] at h
    exact absurd h (by simp)
  · rw [if_neg hc] at h ⊢
    by_cases hlen : (config.errors.getD []).length > a.length
    · rw [if_pos hlen] at h
      injection h with h
      subst h
      rw [if_neg (by
        rw [List.length_append, replaceWithSerialized_length, List.length_map,
          List.length_drop]
        omega)]
      congr 1
      rw [replaceWithSerialized_append, replaceWithSerialized_idem,
        replaceWithSerialized_length]
      rw [show 0 + a.length = a.length by omega]
      rw [replaceWithSerialized_map_drop (config.errors.getD []) _ a.length rfl]
    · rw [if_neg hlen] at h
      injection h with h
      subst h
      rw [if_neg (by rw [replaceWithSerialized_length]; omega)]
      congr 1
      exact replaceWithSerialized_idem _ a 0

/-- Witness for the C6 theorem: a config with one linked and one link-free
error over a one-element artifact; the second run reproduces the first run's
output. -/
theorem writebackConfig_idempotent_witness :
    writebackConfig ⟨"cat", some [⟨1, "m", "t", "b", none⟩, ⟨2, "m2", "t2", "b2", some "L"⟩]⟩
        ["\x7b\n  error_code: 1,\n  app_message: \"m\",\n  post_title: \"t\",\n  post_body: \"b\"\n\x7d",
         "\x7b\n  error_code: 2,\n  app_message: \"m2\",\n  post_title: \"t2\",\n  post_body: \"b2\",\n  _discussion_link: \"L\"\n\x7d"]
      = Except.ok
        ["\x7b\n  error_code: 1,\n  app_message: \"m\",\n  post_title: \"t\",\n  post_body: \"b\"\n\x7d",
         "\x7b\n  error_code: 2,\n  app_message: \"m2\",\n  post_title: \"t2\",\n  post_body: \"b2\",\n  _discussion_link: \"L\"\n\x7d"] :=
  writebackConfig_idempotent
    ⟨"cat", some [⟨1, "m", "t", "b", none⟩, ⟨2, "m2", "t2", "b2", some "L"⟩]⟩
    ["old"] _ (by decide)

/-! ## Constructor validation (C4) and error lookup (C7) -/

/-- C4 (corrected), counterexample: constructing the client with a defined but
empty error sequence succeeds — in JavaScript `!config.errors` is false for an
empty array, so only `errors: undefined` is rejected, contradicting the claim
that construction with an empty error sequence fails. -/
theorem constructorCheck_empty_errors_ok :
    constructorCheck (some "token") { category_name := "cat", errors := some [] } =
      Except.ok () := by
  decide

/-- C4 (amended): construction succeeds exactly when the GitHub token is
truthy, `categoryName` is non-empty, and the error sequence field is defined;
a defined-but-empty error sequence is accepted (array truthiness). -/
theorem constructorCheck_spec (ghToken : Option String) (config : SherrorConfig) :
    constructorCheck ghToken config = Except.ok () ↔
      (truthy ghToken = true ∧ config.category_name ≠ "" ∧ config.errors ≠ none) := by
  unfold constructorCheck
  cases htok : truthy ghToken with
  | false => simp
  | true =>
    simp only [Bool.true_eq_false, if_false, true_and]
    by_cases hc : config.category_name = "" ∨ config.errors = none
    · simp only [hc, if_true]
      constructor
      · intro h; exact absurd h (by simp)
      · intro h; exact absurd hc (by rw [not_or]; exact ⟨h.1, h.2⟩)
    · rw [not_or] at hc
      simp [hc.1, hc.2]

/-- C7 (confirmed): `get(code)` for an absent code fails with the
NotFoundError message and never returns a value, and when two or more entries
share the same code, `get(code)` returns the first matching entry in
declaration order (with its message colorized). -/
theorem get_spec (colorize : String → String) (errors : List SherrorError) (code : Int) :
    ((∀ e ∈ errors, e.error_code ≠ code) →
      get colorize errors code =
        Except.error ("Error code " ++ intToStr code ++ " not found in config"))
    ∧ (∀ pre e post, errors = pre ++ e :: post → e.error_code = code →
        (∀ e' ∈ pre, e'.error_code ≠ code) →
        get colorize errors code = Except.ok { e with app_message := colorize e.app_message }) := by
  constructor
  · intro h
    have hnone : errors.find? (fun e => e.error_code == code) = none := by
      apply find?_eq_none_of_all
      intro e he
      simp only [beq_eq_false_iff_ne, ne_eq]
      exact h e he
    unfold get
    rw [hnone]
  · intro pre e post heq he hpre
    have hprenone : pre.find? (fun e => e.error_code == code) = none := by
      apply find?_eq_none_of_all
      intro e' he'
      simp only [beq_eq_false_iff_ne, ne_eq]
      exact hpre e' he'
    have hfind : errors.find? (fun e => e.error_code == code) = some e := by
      rw [heq, find?_append_of_none _ _ _ hprenone]
      simp [List.find?, he]
    unfold get
    rw [hfind]

/-- Witness for the C7 theorem: a config with a duplicated code 1; looking up
the absent code 7 fails, looking up code 1 returns the first entry. -/
theorem get_spec_witness :
    get id [⟨1, "first", "t1", "b1", none⟩, ⟨1, "second", "t2", "b2", none⟩] 7 =
      Except.error ("Error code " ++ intToStr 7 ++ " not found in config")
    ∧ get id [⟨1, "first", "t1", "b1", none⟩, ⟨1, "second", "t2", "b2", none⟩] 1 =
      Except.ok ⟨1, "first", "t1", "b1", none⟩ := by
  constructor
  · exact (get_spec id [⟨1, "first", "t1", "b1", none⟩, ⟨1, "second", "t2", "b2", none⟩] 7).1
      (by decide)
  · exact (get_spec id [⟨1, "first", "t1", "b1", none⟩, ⟨1, "second", "t2", "b2", none⟩] 1).2
      [] ⟨1, "first", "t1", "b1", none⟩ [⟨1, "second", "t2", "b2", none⟩] rfl rfl (by decide)

/-! ## Synchronization engine lemmas -/

theorem syncLoop_all_matched (rm : RemoteModel) (catId : String) :
    ∀ errs index cc,
      (∀ e ∈ errs, ∃ l n d, e._discussion_link = some l ∧ l ≠ "" ∧
        parseDiscussionNumber l = Except.ok (some n) ∧
        rm.discussions.find? (fun d' => d'.number == n) = some d ∧
        d.title = e.post_title ∧ d.body = e.post_body) →
      syncLoop rm catId index cc errs = ⟨Except.ok (), errs, [], false⟩ := by
  intro errs
  induction errs with
  | nil => intro index cc _; rfl
  | cons err rest ih =>
    intro index cc hall
    obtain ⟨l, n, d, hl, hlne, hpn, hfind, ht, hb⟩ := hall err (List.mem_cons_self _ _)
    have htr : truthy err._discussion_link = true := by
      rw [hl]; simp [truthy, hlne]
    unfold syncLoop
    rw [if_pos htr, hl, show (some l).getD "" = l from rfl]
    simp only [hpn]
    simp only [hfind]
    rw [if_neg (by rw [ht, hb]; simp)]
    rw [ih (index + 1) cc (fun e he => hall e (List.mem_cons_of_mem _ he))]

/-- C3 (confirmed): when the configured category name matches no remote
category, `sync` aborts with the category-not-found error before issuing any
create or update mutation (the event trace is empty — in particular no
category creation is attempted, the platform offers no such mutation), and
the console output lists the available categories. -/
theorem sync_category_not_found (rm : RemoteModel) (remote : String)
    (config : SherrorConfig) (owner repo : String) (errs : List SherrorError)
    (hname : config.category_name ≠ "") (herrs : config.errors = some errs)
    (hparse : parseGitRemote remote = Except.ok (owner, repo))
    (hrepo : rm.repoFound = true)
    (hcat : rm.categories.find? (fun c => c.name == config.category_name) = none) :
    sync rm remote config =
      { result := Except.error ("Discussion category \"" ++ config.category_name ++
          "\" not found and cannot be created programmatically"),
        errors := errs, events := [],
        logs := [categoryNotFoundLog owner repo config.category_name rm.categories] } := by
  unfold sync
  rw [herrs]
  rw [if_neg (by rintro (h | h); exact hname h; exact Option.noConfusion h)]
  simp only [hparse, hrepo, hcat, Option.getD_some]
  rw [if_neg (by decide)]

/-- Witness for the C3 theorem at a concrete config whose category is absent
from the remote category list. -/
theorem sync_category_not_found_witness :
    sync ⟨true, "R", [⟨"C1", "General"⟩, ⟨"C2", "Ideas"⟩], [], fun _ => "u", fun _ => false⟩
      "git@g:o/r.git" ⟨"errors", some []⟩ =
      { result := Except.error ("Discussion category \"" ++ "errors" ++
          "\" not found and cannot be created programmatically"),
        errors := [], events := [],
        logs := [categoryNotFoundLog "o" "r" "errors" [⟨"C1", "General"⟩, ⟨"C2", "Ideas"⟩]] } :=
  sync_category_not_found
    ⟨true, "R", [⟨"C1", "General"⟩, ⟨"C2", "Ideas"⟩], [], fun _ => "u", fun _ => false⟩
    "git@g:o/r.git" ⟨"errors", some []⟩ "o" "r" []
    (by decide) rfl (by decide) rfl (by decide)

theorem syncLoop_no_writeback (rm : RemoteModel) (catId : String) :
    ∀ errs index cc, (syncLoop rm catId index cc errs).events.filter isWriteback = [] := by
  intro errs
  induction errs with
  | nil => intro index cc; rfl
  | cons err rest ih =>
    intro index cc
    unfold syncLoop
    by_cases htr : truthy err._discussion_link = true
    · rw [if_pos htr]
      cases hpn : parseDiscussionNumber (err._discussion_link.getD "") with
      | error e => rfl
      | ok onum =>
        cases onum with
        | none => rfl
        | some n =>
          dsimp only
          cases hfind : rm.discussions.find? (fun d => d.number == n) with
          | none => rfl
          | some d =>
            dsimp only
            by_cases hdiff : d.title ≠ err.post_title ∨ d.body ≠ err.post_body
            · rw [if_pos hdiff]
              simp only [List.filter_cons, show isWriteback
                (SyncEvent.update index d.id err.post_title err.post_body) = false from rfl,
                Bool.false_eq_true, if_false]
              exact ih (index + 1) cc
            · rw [if_neg hdiff]
              exact ih (index + 1) cc
    · rw [if_neg htr]
      simp only [List.filter_cons, show isWriteback (SyncEvent.create index rm.repoId catId
        err.post_title err.post_body (rm.createUrls cc)) = false from rfl,
        Bool.false_eq_true, if_false]
      exact ih (index + 1) (cc + 1)

theorem syncLoop_updated_any_create (rm : RemoteModel) (catId : String) :
    ∀ errs index cc, (syncLoop rm catId index cc errs).updated =
      (syncLoop rm catId index cc errs).events.any isCreate := by
  intro errs
  induction errs with
  | nil => intro index cc; rfl
  | cons err rest ih =>
    intro index cc
    unfold syncLoop
    by_cases htr : truthy err._discussion_link = true
    · rw [if_pos htr]
      cases hpn : parseDiscussionNumber (err._discussion_link.getD "") with
      | error e => rfl
      | ok onum =>
        cases onum with
        | none => rfl
        | some n =>
          dsimp only
          cases hfind : rm.discussions.find? (fun d => d.number == n) with
          | none => rfl
          | some d =>
            dsimp only
            by_cases hdiff : d.title ≠ err.post_title ∨ d.body ≠ err.post_body
            · rw [if_pos hdiff]
              simp only [List.any_cons, show isCreate
                (SyncEvent.update index d.id err.post_title err.post_body) = false from rfl,
                Bool.false_or]
              exact ih (index + 1) cc
            · rw [if_neg hdiff]
              exact ih (index + 1) cc
    · rw [if_neg htr]
      simp only [List.any_cons, show isCreate (SyncEvent.create index rm.repoId catId
        err.post_title err.post_body (rm.createUrls cc)) = true from rfl, Bool.true_or]

theorem syncLoop_create_links (rm : RemoteModel) (catId : String) :
    ∀ errs index cc i rid cid t b u,
      SyncEvent.create i rid cid t b u ∈ (syncLoop rm catId index cc errs).events →
      index ≤ i ∧ ∃ e, (syncLoop rm catId index cc errs).errors[i - index]? = some e ∧
        e._discussion_link = some u := by
  intro errs
  induction errs with
  | nil =>
    intro index cc i rid cid t b u h
    exact absurd h (by simp [syncLoop])
  | cons err rest ih =>
    intro index cc i rid cid t b u
    unfold syncLoop
    by_cases htr : truthy err._discussion_link = true
    · rw [if_pos htr]
      cases hpn : parseDiscussionNumber (err._discussion_link.getD "") with
      | error e => intro h; exact absurd h (by simp)
      | ok onum =>
        cases onum with
        | none => intro h; exact absurd h (by simp)
        | some n =>
          dsimp only
          cases hfind : rm.discussions.find? (fun d => d.number == n) with
          | none => intro h; exact absurd h (by simp)
          | some d =>
            dsimp only
            by_cases hdiff : d.title ≠ err.post_title ∨ d.body ≠ err.post_body
            · rw [if_pos hdiff]
              intro h
              rcases List.mem_cons.mp h with heq | hmem
              · exact SyncEvent.noConfusion heq
              · obtain ⟨hle, e, he, hlink⟩ := ih (index + 1) cc i rid cid t b u hmem
                refine ⟨by omega, e, ?_, hlink⟩
                rw [show i - index = (i - (index + 1)) + 1 by omega]
                simpa using he
            · rw [if_neg hdiff]
              intro h
              obtain ⟨hle, e, he, hlink⟩ := ih (index + 1) cc i rid cid t b u h
              refine ⟨by omega, e, ?_, hlink⟩
              rw [show i - index = (i - (index + 1)) + 1 by omega]
              simpa using he
    · rw [if_neg htr]
      intro h
      rcases List.mem_cons.mp h with heq | hmem
      · rw [SyncEvent.create.injEq] at heq
        obtain ⟨rfl, -, -, -, -, rfl⟩ := heq
        refine ⟨Nat.le_refl _, { err with _discussion_link := some (rm.createUrls cc) }, ?_, rfl⟩
        simp
      · obtain ⟨hle, e, he, hlink⟩ := ih (index + 1) (cc + 1) i rid cid t b u hmem
        refine ⟨by omega, e, ?_, hlink⟩
        rw [show i - index = (i - (index + 1)) + 1 by omega]
        simpa using he

theorem syncLoop_update_events (rm : RemoteModel) (catId : String) :
    ∀ errs index cc k id t b,
      SyncEvent.update k id t b ∈ (syncLoop rm catId index cc errs).events →
      index ≤ k ∧ ∃ e n d, errs[k - index]? = some e ∧
        truthy e._discussion_link = true ∧
        parseDiscussionNumber (e._discussion_link.getD "") = Except.ok (some n) ∧
        rm.discussions.find? (fun d' => d'.number == n) = some d ∧
        (d.title ≠ e.post_title ∨ d.body ≠ e.post_body) := by
  intro errs
  induction errs with
  | nil =>
    intro index cc k id t b h
    exact absurd h (by simp [syncLoop])
  | cons err rest ih =>
    intro index cc k id t b
    unfold syncLoop
    by_cases htr : truthy err._discussion_link = true
    · rw [if_pos htr]
      cases hpn : parseDiscussionNumber (err._discussion_link.getD "") with
      | error e => intro h; exact absurd h (by simp)
      | ok onum =>
        cases onum with
        | none => intro h; exact absurd h (by simp)
        | some n =>
          dsimp only
          cases hfind : rm.discussions.find? (fun d => d.number == n) with
          | none => intro h; exact absurd h (by simp)
          | some d =>
            dsimp only
            by_cases hdiff : d.title ≠ err.post_title ∨ d.body ≠ err.post_body
            · rw [if_pos hdiff]
              intro h
              rcases List.mem_cons.mp h with heq | hmem
              · rw [SyncEvent.update.injEq] at heq
                obtain ⟨rfl, -, -, -⟩ := heq
                exact ⟨Nat.le_refl _, err, n, d, by simp, htr, hpn, hfind, hdiff⟩
              · obtain ⟨hle, e, n', d', he, h1, h2, h3, h4⟩ := ih (index + 1) cc k id t b hmem
                refine ⟨by omega, e, n', d', ?_, h1, h2, h3, h4⟩
                rw [show k - index = (k - (index + 1)) + 1 by omega]
                simpa using he
            · rw [if_neg hdiff]
              intro h
              obtain ⟨hle, e, n', d', he, h1, h2, h3, h4⟩ := ih (index + 1) cc k id t b h
              refine ⟨by omega, e, n', d', ?_, h1, h2, h3, h4⟩
              rw [show k - index = (k - (index + 1)) + 1 by omega]
              simpa using he
    · rw [if_neg htr]
      intro h
      rcases List.mem_cons.mp h with heq | hmem
      · exact SyncEvent.noConfusion heq
      · obtain ⟨hle, e, n', d', he, h1, h2, h3, h4⟩ := ih (index + 1) (cc + 1) k id t b hmem
        refine ⟨by omega, e, n', d', ?_, h1, h2, h3, h4⟩
        rw [show k - index = (k - (index + 1)) + 1 by omega]
        simpa using he

theorem syncLoop_no_update_of_matched (rm : RemoteModel) (catId : String)
    (errs : List SherrorError) (k : Nat) (e : SherrorError) (hk : errs[k]? = some e)
    (l : String) (n : Int) (d : RemoteDiscussion)
    (hl : e._discussion_link = some l)
    (hpn : parseDiscussionNumber l = Except.ok (some n))
    (hfind : rm.discussions.find? (fun d' => d'.number == n) = some d)
    (ht : d.title = e.post_title) (hb : d.body = e.post_body) :
    ∀ cc id t b, SyncEvent.update k id t b ∉ (syncLoop rm catId 0 cc errs).events := by
  intro cc id t b hmem
  obtain ⟨-, e2, n2, d2, he2, htr2, hpn2, hfind2, hdiff2⟩ :=
    syncLoop_update_events rm catId errs 0 cc k id t b hmem
  rw [show k - 0 = k from rfl, hk] at he2
  obtain rfl : e2 = e := (Option.some.inj he2).symm
  rw [hl, show (some l).getD "" = l from rfl, hpn] at hpn2
  obtain rfl : n2 = n := (Option.some.inj (Except.ok.inj hpn2)).symm
  rw [hfind] at hfind2
  obtain rfl : d2 = d := (Option.some.inj hfind2).symm
  rcases hdiff2 with hx | hx
  · exact hx ht
  · exact hx hb

/-- C1 (confirmed): in any config whose category resolves, every error entry
whose truthy discussion link resolves to an existing remote discussion with
identical title and body receives no update mutation during `sync`, whatever
the other entries do; a run in which no entry creates a new link triggers no
writeback; and when every entry is in sync the whole run is a no-op with an
empty event trace and an unchanged error list. -/
theorem sync_noop (rm : RemoteModel) (remote : String) (config : SherrorConfig)
    (owner repo : String) (errs : List SherrorError) (cat : DiscussionCategory)
    (hname : config.category_name ≠ "") (herrs : config.errors = some errs)
    (hparse : parseGitRemote remote = Except.ok (owner, repo))
    (hrepo : rm.repoFound = true)
    (hcat : rm.categories.find? (fun c => c.name == config.category_name) = some cat) :
    (∀ k e, errs[k]? = some e →
      (∃ l n d, e._discussion_link = some l ∧ l ≠ "" ∧
        parseDiscussionNumber l = Except.ok (some n) ∧
        rm.discussions.find? (fun d' => d'.number == n) = some d ∧
        d.title = e.post_title ∧ d.body = e.post_body) →
      ∀ id t b, SyncEvent.update k id t b ∉ (sync rm remote config).events)
    ∧ ((sync rm remote config).events.any isCreate = false →
      (sync rm remote config).events.filter isWriteback = [])
    ∧ ((∀ e ∈ errs, ∃ l n d, e._discussion_link = some l ∧ l ≠ "" ∧
        parseDiscussionNumber l = Except.ok (some n) ∧
        rm.discussions.find? (fun d' => d'.number == n) = some d ∧
        d.title = e.post_title ∧ d.body = e.post_body) →
      sync rm remote config =
        { result := Except.ok (), errors := errs, events := [],
          logs := ["Using existing category: " ++ cat.name ++ " (" ++ cat.id ++ ")"] }) := by
  have hW := syncLoop_no_writeback rm cat.id errs 0 0
  have hU := syncLoop_updated_any_create rm cat.id errs 0 0
  unfold sync
  rw [herrs]
  rw [if_neg (by rintro (h | h); exact hname h; exact Option.noConfusion h)]
  simp only [hparse, hrepo, hcat, Option.getD_some]
  rw [if_neg (by decide)]
  cases hres : (syncLoop rm cat.id 0 0 errs).result with
  | error e0 =>
    dsimp only
    refine ⟨?_, ?_, ?_⟩
    · intro k e hk hmatched id t b hmem
      obtain ⟨l, n, d, hl, -, hpn, hfind, ht, hb⟩ := hmatched
      exact syncLoop_no_update_of_matched rm cat.id errs k e hk l n d hl hpn hfind ht hb
        0 id t b hmem
    · intro _
      exact hW
    · intro hall
      rw [syncLoop_all_matched rm cat.id errs 0 0 hall] at hres
      exact Except.noConfusion hres
  | ok u0 =>
    by_cases hup : (syncLoop rm cat.id 0 0 errs).updated = true
    · rw [if_pos hup]
      dsimp only
      refine ⟨?_, ?_, ?_⟩
      · intro k e hk hmatched id t b hmem
        obtain ⟨l, n, d, hl, -, hpn, hfind, ht, hb⟩ := hmatched
        rcases List.mem_append.mp hmem with hmem2 | hmem2
        · exact syncLoop_no_update_of_matched rm cat.id errs k e hk l n d hl hpn hfind ht hb
            0 id t b hmem2
        · rw [List.mem_singleton] at hmem2
          exact SyncEvent.noConfusion hmem2
      · intro hnc
        exfalso
        rw [List.any_append, hU.symm.trans hup, Bool.true_or] at hnc
        exact Bool.noConfusion hnc
      · intro hall
        rw [syncLoop_all_matched rm cat.id errs 0 0 hall] at hup
        exact absurd hup (by simp)
    · rw [if_neg hup]
      dsimp only
      refine ⟨?_, ?_, ?_⟩
      · intro k e hk hmatched id t b hmem
        obtain ⟨l, n, d, hl, -, hpn, hfind, ht, hb⟩ := hmatched
        exact syncLoop_no_update_of_matched rm cat.id errs k e hk l n d hl hpn hfind ht hb
          0 id t b hmem
      · intro _
        exact hW
      · intro hall
        rw [syncLoop_all_matched rm cat.id errs 0 0 hall]

/-- Witness for the C1 theorem: the spec's scenario — one error whose link
points to discussion 27 and remote discussion 27 has identical title/body —
receives no update mutation, and the run is a writeback-free no-op. -/
theorem sync_noop_witness :
    (∀ id t b, SyncEvent.update 0 id t b ∉
      (sync ⟨true, "R", [⟨"C", "cat"⟩],
          [⟨"D27", 27, "Error 1", "if this happens, do that", "C"⟩],
          fun _ => "unused", fun _ => false⟩
        "git@g:o/r.git"
        ⟨"cat", some [⟨1, "m", "Error 1", "if this happens, do that",
          some "https://github.com/polyseam/sherror/discussions/27"⟩]⟩).events)
    ∧ sync ⟨true, "R", [⟨"C", "cat"⟩],
          [⟨"D27", 27, "Error 1", "if this happens, do that", "C"⟩],
          fun _ => "unused", fun _ => false⟩
        "git@g:o/r.git"
        ⟨"cat", some [⟨1, "m", "Error 1", "if this happens, do that",
          some "https://github.com/polyseam/sherror/discussions/27"⟩]⟩ =
      { result := Except.ok (),
        errors := [⟨1, "m", "Error 1", "if this happens, do that",
          some "https://github.com/polyseam/sherror/discussions/27"⟩],
        events := [],
        logs := ["Using existing category: " ++ "cat" ++ " (" ++ "C" ++ ")"] } := by
  have h := sync_noop
    ⟨true, "R", [⟨"C", "cat"⟩], [⟨"D27", 27, "Error 1", "if this happens, do that", "C"⟩],
      fun _ => "unused", fun _ => false⟩
    "git@g:o/r.git"
    ⟨"cat", some [⟨1, "m", "Error 1", "if this happens, do that",
      some "https://github.com/polyseam/sherror/discussions/27"⟩]⟩
    "o" "r"
    [⟨1, "m", "Error 1", "if this happens, do that",
      some "https://github.com/polyseam/sherror/discussions/27"⟩]
    ⟨"C", "cat"⟩
    (by decide) rfl (by decide) rfl (by decide)
  refine ⟨?_, ?_⟩
  · exact h.1 0 ⟨1, "m", "Error 1", "if this happens, do that",
      some "https://github.com/polyseam/sherror/discussions/27"⟩ rfl
      ⟨"https://github.com/polyseam/sherror/discussions/27", 27,
        ⟨"D27", 27, "Error 1", "if this happens, do that", "C"⟩,
        rfl, by decide, by decide, by decide, rfl, rfl⟩
  · exact h.2.2 (by
      intro e he
      rw [List.mem_singleton] at he
      subst he
      exact ⟨"https://github.com/polyseam/sherror/discussions/27", 27,
        ⟨"D27", 27, "Error 1", "if this happens, do that", "C"⟩,
        rfl, by decide, by decide, by decide, rfl, rfl⟩)

/-- C2 (confirmed): on every successfully completed sync run, the config
writeback is invoked exactly once when at least one new discussion link was
created and zero times otherwise; every writeback event is the final event of
the run (never per-entry), and the error list it persists is the final
in-memory list, in which every created discussion URL has already been
recorded at the index of the entry whose creation returned it. -/
theorem sync_writeback_once (rm : RemoteModel) (remote : String) (config : SherrorConfig)
    (hok : (sync rm remote config).result = Except.ok ()) :
    ((sync rm remote config).events.filter isWriteback =
      if (sync rm remote config).events.any isCreate then
        [SyncEvent.writeback (sync rm remote config).errors]
      else [])
    ∧ ((sync rm remote config).events.any isCreate = true →
      (sync rm remote config).events.getLast? =
        some (SyncEvent.writeback (sync rm remote config).errors))
    ∧ (∀ i rid cid t b u,
      SyncEvent.create i rid cid t b u ∈ (sync rm remote config).events →
      ∃ e, (sync rm remote config).errors[i]? = some e ∧ e._discussion_link = some u) := by
  by_cases h1 : config.category_name = "" ∨ config.errors = none
  · exfalso
    unfold sync at hok
    rw [if_pos h1] at hok
    exact Except.noConfusion hok
  · cases hparse : parseGitRemote remote with
    | error e =>
      exfalso
      unfold sync at hok
      rw [if_neg h1] at hok
      simp only [hparse] at hok
      exact Except.noConfusion hok
    | ok pr =>
      obtain ⟨owner, repo⟩ := pr
      by_cases hrf : rm.repoFound = true
      · cases hcat : rm.categories.find? (fun c => c.name == config.category_name) with
        | none =>
          exfalso
          unfold sync at hok
          rw [if_neg h1] at hok
          simp only [hparse, hrf, hcat] at hok
          rw [if_neg (by decide)] at hok
          exact Except.noConfusion hok
        | some cat =>
          have hW := syncLoop_no_writeback rm cat.id (config.errors.getD []) 0 0
          have hU := syncLoop_updated_any_create rm cat.id (config.errors.getD []) 0 0
          have hC := syncLoop_create_links rm cat.id (config.errors.getD []) 0 0
          unfold sync at hok ⊢
          rw [if_neg h1] at hok ⊢
          simp only [hparse, hrf, hcat] at hok ⊢
          rw [if_neg (by decide)] at hok ⊢
          cases hres : (syncLoop rm cat.id 0 0 (config.errors.getD [])).result with
          | error e =>
            rw [hres] at hok
            simp at hok
          | ok u0 =>
            dsimp only
            by_cases hup : (syncLoop rm cat.id 0 0 (config.errors.getD [])).updated = true
            · rw [if_pos hup]
              dsimp only
              have hany : (syncLoop rm cat.id 0 0 (config.errors.getD [])).events.any
                  isCreate = true := by rw [← hU]; exact hup
              refine ⟨?_, ?_, ?_⟩
              · rw [List.filter_append, hW, if_pos (by
                  rw [List.any_append, hany, Bool.true_or])]
                rfl
              · intro _
                rw [List.getLast?_concat]
              · intro i rid cid t b u hmem
                rcases List.mem_append.mp hmem with hmem | hmem
                · obtain ⟨-, e, he, hlink⟩ := hC i rid cid t b u hmem
                  exact ⟨e, by simpa using he, hlink⟩
                · rw [List.mem_singleton] at hmem
                  exact SyncEvent.noConfusion hmem
            · rw [if_neg hup]
              dsimp only
              have hany : (syncLoop rm cat.id 0 0 (config.errors.getD [])).events.any
                  isCreate = false := by
                rw [← hU]
                exact Bool.eq_false_iff.mpr hup
              refine ⟨?_, ?_, ?_⟩
              · rw [hW, hany]
                rfl
              · intro hany2
                rw [hany] at hany2
                exact Bool.noConfusion hany2
              · intro i rid cid t b u hmem
                obtain ⟨-, e, he, hlink⟩ := hC i rid cid t b u hmem
                exact ⟨e, by simpa using he, hlink⟩
      · exfalso
        unfold sync at hok
        rw [if_neg h1] at hok
        simp only [hparse] at hok
        rw [if_pos (by
          cases hb : rm.repoFound
          · rfl
          · exact absurd hb hrf)] at hok
        exact Except.noConfusion hok

/-- Witness for the C2 theorem: the spec's scenario — one error lacking a
link, category present remotely with no matching discussions — creates one
discussion and triggers exactly one writeback, at the end, with the new URL
recorded. -/
theorem sync_writeback_once_witness :
    ((sync ⟨true, "R", [⟨"C", "cat"⟩], [], fun k => natToStr k, fun _ => false⟩
        "git@g:o/r.git" ⟨"cat", some [⟨1, "m", "t", "b", none⟩]⟩).events.filter isWriteback =
      if (sync ⟨true, "R", [⟨"C", "cat"⟩], [], fun k => natToStr k, fun _ => false⟩
          "git@g:o/r.git" ⟨"cat", some [⟨1, "m", "t", "b", none⟩]⟩).events.any isCreate then
        [SyncEvent.writeback (sync ⟨true, "R", [⟨"C", "cat"⟩], [], fun k => natToStr k,
          fun _ => false⟩ "git@g:o/r.git" ⟨"cat", some [⟨1, "m", "t", "b", none⟩]⟩).errors]
      else [])
    ∧ ((sync ⟨true, "R", [⟨"C", "cat"⟩], [], fun k => natToStr k, fun _ => false⟩
        "git@g:o/r.git" ⟨"cat", some [⟨1, "m", "t", "b", none⟩]⟩).events.any isCreate = true →
      (sync ⟨true, "R", [⟨"C", "cat"⟩], [], fun k => natToStr k, fun _ => false⟩
          "git@g:o/r.git" ⟨"cat", some [⟨1, "m", "t", "b", none⟩]⟩).events.getLast? =
        some (SyncEvent.writeback (sync ⟨true, "R", [⟨"C", "cat"⟩], [], fun k => natToStr k,
          fun _ => false⟩ "git@g:o/r.git" ⟨"cat", some [⟨1, "m", "t", "b", none⟩]⟩).errors))
    ∧ (∀ i rid cid t b u,
      SyncEvent.create i rid cid t b u ∈ (sync ⟨true, "R", [⟨"C", "cat"⟩], [],
        fun k => natToStr k, fun _ => false⟩ "git@g:o/r.git"
        ⟨"cat", some [⟨1, "m", "t", "b", none⟩]⟩).events →
      ∃ e, (sync ⟨true, "R", [⟨"C", "cat"⟩], [], fun k => natToStr k, fun _ => false⟩
          "git@g:o/r.git" ⟨"cat", some [⟨1, "m", "t", "b", none⟩]⟩).errors[i]? = some e ∧
        e._discussion_link = some u) :=
  sync_writeback_once ⟨true, "R", [⟨"C", "cat"⟩], [], fun k => natToStr k, fun _ => false⟩
    "git@g:o/r.git" ⟨"cat", some [⟨1, "m", "t", "b", none⟩]⟩ (by decide)

/-! ## Bulk clear (C9) -/

theorem deleteLoop_all_success (rm : RemoteModel) :
    ∀ ds, (∀ d ∈ ds, rm.deleteFails d.id = false) →
      deleteLoop rm ds = ⟨Except.ok (),
        ds.map (fun d => ClearEvent.delete d.id),
        ds.map (fun d => "Deleting discussion #" ++ intToStr d.number ++ ": " ++ d.title)⟩ := by
  intro ds
  induction ds with
  | nil => intro _; rfl
  | cons d rest ih =>
    intro hall
    unfold deleteLoop
    rw [hall d (List.mem_cons_self _ _), if_neg Bool.false_ne_true,
      ih (fun d' hd' => hall d' (List.mem_cons_of_mem _ hd'))]
    rfl

/-- C9 (corrected), counterexample: a `clear` run in which the category
resolves and every remote deletion (there are none) succeeds, but the
category holds no discussions: the run returns successfully having issued no
events at all — the local `_discussion_link` is not removed and the writeback
is never invoked, contradicting the claim. -/
theorem clear_counterexample :
    (clear ⟨true, "R", [⟨"C", "cat"⟩], [], fun _ => "u", fun _ => false⟩ "git@g:o/r.git"
      ⟨"cat", some [⟨1, "m", "t", "b", some "https://g/d/1"⟩]⟩).result = Except.ok ()
    ∧ (clear ⟨true, "R", [⟨"C", "cat"⟩], [], fun _ => "u", fun _ => false⟩ "git@g:o/r.git"
      ⟨"cat", some [⟨1, "m", "t", "b", some "https://g/d/1"⟩]⟩).events = []
    ∧ (clear ⟨true, "R", [⟨"C", "cat"⟩], [], fun _ => "u", fun _ => false⟩ "git@g:o/r.git"
      ⟨"cat", some [⟨1, "m", "t", "b", some "https://g/d/1"⟩]⟩).errors =
      [⟨1, "m", "t", "b", some "https://g/d/1"⟩] := by
  decide

/-- C9 (amended): for every `clear` run in which the category resolves, at
least one discussion is fetched, and every remote deletion succeeds, `clear`
deletes each fetched discussion in order, then removes the `_discussion_link`
from every local error definition that had one, and invokes the config
writeback exactly once provided at least one definition had a link (and zero
times when none had — and none of this happens when the category is empty,
since the run returns early). -/
theorem clear_spec (rm : RemoteModel) (remote : String) (config : SherrorConfig)
    (owner repo : String) (cat : DiscussionCategory) (errs : List SherrorError)
    (hname : config.category_name ≠ "") (herrs : config.errors = some errs)
    (hparse : parseGitRemote remote = Except.ok (owner, repo))
    (hrepo : rm.repoFound = true)
    (hcat : rm.categories.find? (fun c => c.name == config.category_name) = some cat)
    (hne : ((rm.discussions.filter (fun d => d.categoryId == cat.id)).take 100).isEmpty = false)
    (hdel : ∀ d ∈ (rm.discussions.filter (fun d => d.categoryId == cat.id)).take 100,
      rm.deleteFails d.id = false) :
    clear rm remote config =
      { result := Except.ok (),
        errors := errs.map stripLink,
        events :=
          ((rm.discussions.filter (fun d => d.categoryId == cat.id)).take 100).map
            (fun d => ClearEvent.delete d.id) ++
          (if errs.any (fun e => truthy e._discussion_link) then
            [ClearEvent.writeback (errs.map stripLink)]
          else []),
        logs := ("Found " ++
            natToStr ((rm.discussions.filter (fun d => d.categoryId == cat.id)).take 100).length ++
            " discussions to delete...") ::
          ((rm.discussions.filter (fun d => d.categoryId == cat.id)).take 100).map
            (fun d => "Deleting discussion #" ++ intToStr d.number ++ ": " ++ d.title) ++
          ["Successfully deleted " ++
            natToStr ((rm.discussions.filter (fun d => d.categoryId == cat.id)).take 100).length ++
            " discussions from category \"" ++ config.category_name ++ "\""] } := by
  unfold clear
  rw [if_neg hname]
  simp only [hparse, hrepo, hcat, herrs, Option.getD_some, hne, Bool.false_eq_true, if_false]
  rw [if_neg (by decide)]
  rw [deleteLoop_all_success rm _ hdel]
  dsimp only
  by_cases hany : errs.any (fun e => truthy e._discussion_link) = true
  · simp only [hany, if_true]
  · simp only [Bool.eq_false_iff.mpr hany, Bool.false_eq_true, if_false, List.append_nil]

/-- Witness for the amended C9 theorem: the spec's scenario — three
discussions in the category, three linked local entries, no deletion
failures — deletes all three, clears all three links, and writes back once. -/
theorem clear_spec_witness :
    clear ⟨true, "R", [⟨"C", "cat"⟩],
        [⟨"D1", 1, "t1", "b1", "C"⟩, ⟨"D2", 2, "t2", "b2", "C"⟩, ⟨"D3", 3, "t3", "b3", "C"⟩],
        fun _ => "u", fun _ => false⟩ "git@g:o/r.git"
      ⟨"cat", some [⟨1, "m1", "t1", "b1", some "https://g/d/1"⟩,
        ⟨2, "m2", "t2", "b2", some "https://g/d/2"⟩,
        ⟨3, "m3", "t3", "b3", some "https://g/d/3"⟩]⟩ =
      { result := Except.ok (),
        errors := [⟨1, "m1", "t1", "b1", none⟩, ⟨2, "m2", "t2", "b2", none⟩,
          ⟨3, "m3", "t3", "b3", none⟩],
        events := [ClearEvent.delete "D1", ClearEvent.delete "D2", ClearEvent.delete "D3",
          ClearEvent.writeback [⟨1, "m1", "t1", "b1", none⟩, ⟨2, "m2", "t2", "b2", none⟩,
            ⟨3, "m3", "t3", "b3", none⟩]],
        logs := ["Found 3 discussions to delete...",
          "Deleting discussion #1: t1", "Deleting discussion #2: t2",
          "Deleting discussion #3: t3",
          "Successfully deleted 3 discussions from category \"cat\""] } :=
  (clear_spec ⟨true, "R", [⟨"C", "cat"⟩],
      [⟨"D1", 1, "t1", "b1", "C"⟩, ⟨"D2", 2, "t2", "b2", "C"⟩, ⟨"D3", 3, "t3", "b3", "C"⟩],
      fun _ => "u", fun _ => false⟩ "git@g:o/r.git"
    ⟨"cat", some [⟨1, "m1", "t1", "b1", some "https://g/d/1"⟩,
      ⟨2, "m2", "t2", "b2", some "https://g/d/2"⟩,
      ⟨3, "m3", "t3", "b3", some "https://g/d/3"⟩]⟩
    "o" "r" ⟨"C", "cat"⟩
    [⟨1, "m1", "t1", "b1", some "https://g/d/1"⟩,
      ⟨2, "m2", "t2", "b2", some "https://g/d/2"⟩,
      ⟨3, "m3", "t3", "b3", some "https://g/d/3"⟩]
    (by decide) rfl (by decide) rfl (by decide) (by decide) (by decide)).trans (by decide)

end Sherror
